import Mathlib

/-!
# avash `cmd/procmanager.go`: the process-manager shell commands

A shallow embedding of the command handlers of `cmd/procmanager.go`.

* Strings are lists of characters.  Every test the handlers and `strconv.ParseInt`
  make on a string looks at ASCII characters only, so a character outside ASCII
  behaves like the bytes of its UTF-8 encoding (none of which is a digit or sign).
* `int64` / `time.Duration` values are integers, wrapped explicitly by `wrapInt64`
  wherever Go arithmetic can overflow.  `int` is taken to be 64 bits wide.
* A handler is a program in the trace monad `Go`: it yields the list of effects it
  performed, in order, and whether it returned or panicked.
* The package `processmgr` is not part of the file; the manager `pmgr.ProcManager`
  is a parameter `pm : ProcessManager` giving, for every call, what the call returns.
-/

namespace Avash

/-! ## `strconv.ParseInt(s, 10, 64)` -/

/-- The two error values of `strconv` (`ErrSyntax`, `ErrRange`). -/
inductive NumError
  | ErrSyn
  | ErrRange
  deriving DecidableEq, Repr

/-- The largest `uint64`. -/
def maxUint64 : Nat := 18446744073709551615

/-- Two's-complement reading of an integer as an `int64`. -/
def wrapInt64 (x : Int) : Int := (x + 9223372036854775808) % 18446744073709551616 - 9223372036854775808

/-- Wrap-around of `uint64` arithmetic. -/
def wrapUint64 (x : Nat) : Nat := x % 18446744073709551616

/-- The digit loop of `strconv.ParseUint(s, 10, 64)`: `n` is the value accumulated so far.
For base 10 the cutoff is `maxUint64/10 + 1` and `maxVal` is `maxUint64`. -/
def ParseUintLoop : List Char → Nat → Nat × Option NumError
  | [], n => (n, none)
  | c :: cs, n =>
    if '0' ≤ c ∧ c ≤ '9' then
      let d := c.toNat - '0'.toNat
      if n ≥ maxUint64 / 10 + 1 then
        (maxUint64, some NumError.ErrRange)
      else
        let n10 := wrapUint64 (n * 10)
        let n1 := wrapUint64 (n10 + d)
        if n1 < n10 ∨ n1 > maxUint64 then
          (maxUint64, some NumError.ErrRange)
        else
          ParseUintLoop cs n1
    else
      (0, some NumError.ErrSyn)

/-- The function `strconv.ParseUint(s, 10, 64)`. -/
def ParseUint (s : List Char) : Nat × Option NumError :=
  if s = [] then (0, some NumError.ErrSyn) else ParseUintLoop s 0

/-- The function `strconv.ParseInt(s, 10, 64)`: the value and the error (`none` is `nil`). -/
def ParseInt (s : String) : Int × Option NumError :=
  match s.data with
  | [] => (0, some NumError.ErrSyn)
  | c :: rest =>
    let neg := decide (c = '-')
    let body := if c = '+' then rest else if c = '-' then rest else c :: rest
    let r := ParseUint body
    if r.2 = some NumError.ErrSyn then
      (0, r.2)
    else if neg = false ∧ r.1 ≥ 9223372036854775808 then
      (9223372036854775807, some NumError.ErrRange)
    else if neg = true ∧ r.1 > 9223372036854775808 then
      (-9223372036854775808, some NumError.ErrRange)
    else
      let n := wrapInt64 r.1
      (if neg then wrapInt64 (-n) else n, none)

/-! ## `time` -/

/-- The constant `time.Second`, in nanoseconds. -/
def Second : Int := 1000000000

/-- Multiplication of two `time.Duration` values (`int64`, wrapping on overflow). -/
def mulDuration (a b : Int) : Int := wrapInt64 (a * b)

/-- A `*time.Timer`, identified by the duration (nanoseconds) it was created with. -/
structure Timer where
  d : Int
  deriving DecidableEq, Repr

/-- Nanoseconds after its creation at which the timer sends on its channel:
a timer created with a duration that is not positive fires at once. -/
def Timer.firesAfter (t : Timer) : Int := if t.d ≤ 0 then 0 else t.d

/-! ## The process manager `pmgr.ProcManager` -/

/-- The calls the handlers make on the manager. -/
inductive MgrOp
  | StartProcess (name : String)
  | StopProcess (name : String)
  | KillProcess (name : String)
  | RemoveProcess (name : String)
  | StartAllProcesses
  | StopAllProcesses
  | KillAllProcesses
  | Metadata (name : String)
  deriving DecidableEq, Repr

/-- What each call on the manager returns.  An `error` is `none` for `nil` and
`some text` for an error whose `Error()` is `text`; the metadata is given by the
text `fmt.Println` prints for it. -/
structure ProcessManager where
  StartProcess : String → Option String
  StopProcess : String → Option String
  KillProcess : String → Option String
  RemoveProcess : String → Option String
  StartAllProcesses : String × Option String
  StopAllProcesses : String × Option String
  KillAllProcesses : String × Option String
  Metadata : String → String × Option String

/-! ## Effects and the trace monad -/

/-- The seven lifecycle commands. -/
inductive Cmd
  | start | stop | kill | remove | startall | stopall | killall
  deriving DecidableEq, Repr

/-- The function literal started by `go func() { ... }()` in a handler, with the
variables it captures. -/
inductive Closure
  | start (name : String) (delay : Int) (timerv : Timer)
  | stop (name : String) (delay : Int) (timerv : Timer)
  | kill (name : String) (delay : Int) (timerv : Timer)
  | remove (name : String) (delay : Int) (timerv : Timer)
  | startall (delay : Int) (timerv : Timer)
  | stopall (delay : Int) (timerv : Timer)
  | killall (delay : Int) (timerv : Timer)
  deriving DecidableEq, Repr

/-- One observable step of a handler or of a goroutine. -/
inductive Effect
  | help
  | print (text : String)
  | newTimer (t : Timer)
  | recv (t : Timer)
  | call (op : MgrOp)
  | go (f : Closure)
  deriving DecidableEq, Repr

/-- A run of Go code: the effects performed, in order, and the value returned
(`none` when the run ended in a run-time panic). -/
structure Go (α : Type) where
  trace : List Effect
  val : Option α

instance : Monad Go where
  pure a := ⟨[], some a⟩
  bind m f :=
    match m.val with
    | none => ⟨m.trace, none⟩
    | some a => ⟨m.trace ++ (f a).trace, (f a).val⟩

/-- Perform one effect. -/
def emit (e : Effect) : Go Unit := ⟨[e], some ()⟩

/-- The slice access `args[i]`, which panics when `i` is out of range. -/
def index (args : List String) (i : Nat) : Go String := ⟨[], args.get? i⟩

/-- The call `cmd.Help()`. -/
def Help : Go Unit := emit Effect.help

/-- The calls `fmt.Printf` / `fmt.Println`, by the text written. -/
def Print (text : String) : Go Unit := emit (Effect.print text)

/-- The call `time.NewTimer(d)`. -/
def NewTimer (d : Int) : Go Timer := ⟨[Effect.newTimer ⟨d⟩], some ⟨d⟩⟩

/-- The receive `<-timerv.C`, which blocks until the timer fires. -/
def recvTimer (t : Timer) : Go Unit := emit (Effect.recv t)

/-- The statement `go f()`. -/
def goFunc (f : Closure) : Go Unit := emit (Effect.go f)

/-- A manager call returning an `error`. -/
def callErr (op : MgrOp) (r : Option String) : Go (Option String) := ⟨[Effect.call op], some r⟩

/-- A manager call returning a value and an `error`. -/
def callPair (op : MgrOp) (r : String × Option String) : Go (String × Option String) :=
  ⟨[Effect.call op], some r⟩

/-- The verb `%d` applied to an `int`. -/
def fmtD (n : Int) : String := toString n

/-! ## The handlers -/

/-- The `Run` function of `PMMetadataCmd`. -/
def PMMetadataCmd_Run (pm : ProcessManager) (args : List String) : Go Unit := do
  let mut c := decide (args.length ≥ 1)
  if c then
    c := (← index args 0) != ""
  if c then
    let name ← index args 0
    let (metadata, err) ← callPair (MgrOp.Metadata name) (pm.Metadata name)
    if let some e := err then
      Print (e ++ "\n")
    Print (metadata ++ "\n")
  else
    Help

/-- The `Run` function of `PMStartCmd`. -/
def PMStartCmd_Run (args : List String) : Go Unit := do
  let mut c := decide (args.length ≥ 1)
  if c then
    c := (← index args 0) != ""
  if c then
    let name ← index args 0
    let mut delay : Int := 0
    if args.length ≥ 2 then
      let (v, e) := ParseInt (← index args 1)
      if e = none ∧ v > 0 then
        delay := v
    let timerv ← NewTimer (mulDuration delay Second)
    goFunc (Closure.start name delay timerv)
  else
    Help

/-- The `Run` function of `PMStopCmd`. -/
def PMStopCmd_Run (args : List String) : Go Unit := do
  let mut c := decide (args.length ≥ 1)
  if c then
    c := (← index args 0) != ""
  if c then
    let name ← index args 0
    let mut delay : Int := 0
    if args.length ≥ 2 then
      let (v, e) := ParseInt (← index args 1)
      if e = none ∧ v > 0 then
        delay := v
    let timerv ← NewTimer (mulDuration delay Second)
    goFunc (Closure.stop name delay timerv)
  else
    Help

/-- The `Run` function of `PMKillCmd`. -/
def PMKillCmd_Run (args : List String) : Go Unit := do
  let mut c := decide (args.length ≥ 1)
  if c then
    c := (← index args 0) != ""
  if c then
    let name ← index args 0
    let mut delay : Int := 0
    if args.length ≥ 2 then
      let (v, e) := ParseInt (← index args 1)
      if e = none ∧ v > 0 then
        delay := v
    let timerv ← NewTimer (mulDuration delay Second)
    goFunc (Closure.kill name delay timerv)
  else
    Help

/-- The `Run` function of `PMKillAllCmd`. -/
def PMKillAllCmd_Run (args : List String) : Go Unit := do
  let mut delay : Int := 0
  if args.length ≥ 1 then
    let (v, e) := ParseInt (← index args 0)
    if e = none ∧ v > 0 then
      delay := v
  let timerv ← NewTimer (mulDuration delay Second)
  goFunc (Closure.killall delay timerv)

/-- The `Run` function of `PMStopAllCmd`. -/
def PMStopAllCmd_Run (args : List String) : Go Unit := do
  let mut delay : Int := 0
  if args.length ≥ 1 then
    let (v, e) := ParseInt (← index args 0)
    if e = none ∧ v > 0 then
      delay := v
  let timerv ← NewTimer (mulDuration delay Second)
  goFunc (Closure.stopall delay timerv)

/-- The `Run` function of `PMStartAllCmd`. -/
def PMStartAllCmd_Run (args : List String) : Go Unit := do
  let mut delay : Int := 0
  if args.length ≥ 1 then
    let (v, e) := ParseInt (← index args 0)
    if e = none ∧ v > 0 then
      delay := v
  let timerv ← NewTimer (mulDuration delay Second)
  goFunc (Closure.startall delay timerv)

/-- The `Run` function of `PMRemoveCmd`. -/
def PMRemoveCmd_Run (args : List String) : Go Unit := do
  let mut c := decide (args.length ≥ 1)
  if c then
    c := (← index args 0) != ""
  if !c then
    Help
  let name ← index args 0
  let mut delay : Int := 0
  if args.length ≥ 2 then
    let (v, e) := ParseInt (← index args 1)
    if e = none ∧ v > 0 then
      delay := v
  let timerv ← NewTimer (mulDuration delay Second)
  goFunc (Closure.remove name delay timerv)

/-- The body of each function literal started by a handler. -/
def Closure.body (pm : ProcessManager) : Closure → Go Unit
  | Closure.start name delay timerv => do
    Print ("process will start in " ++ fmtD delay ++ "s: " ++ name ++ "\n")
    recvTimer timerv
    let err ← callErr (MgrOp.StartProcess name) (pm.StartProcess name)
    if let some e := err then
      Print (e ++ "\n")
  | Closure.stop name delay timerv => do
    Print ("process will stop in " ++ fmtD delay ++ "s: " ++ name ++ "\n")
    recvTimer timerv
    let err ← callErr (MgrOp.StopProcess name) (pm.StopProcess name)
    if let some e := err then
      Print (e ++ "\n")
  | Closure.kill name delay timerv => do
    Print ("process will stop in " ++ fmtD delay ++ "s: " ++ name ++ "\n")
    recvTimer timerv
    let err ← callErr (MgrOp.KillProcess name) (pm.KillProcess name)
    if let some e := err then
      Print (e ++ "\n")
  | Closure.killall delay timerv => do
    Print ("all process will stop in " ++ fmtD delay ++ "s\n")
    recvTimer timerv
    let (errname, err) ← callPair MgrOp.KillAllProcesses pm.KillAllProcesses
    if let some e := err then
      Print ("Error on process '" ++ errname ++ "': " ++ e ++ "\n")
  | Closure.stopall delay timerv => do
    Print ("all process will stop in " ++ fmtD delay ++ "s\n")
    recvTimer timerv
    let (errname, err) ← callPair MgrOp.StopAllProcesses pm.StopAllProcesses
    if let some e := err then
      Print ("Error on process '" ++ errname ++ "': " ++ e ++ "\n")
  | Closure.startall delay timerv => do
    Print ("All processes will start in " ++ fmtD delay ++ "s\n")
    recvTimer timerv
    let (errname, err) ← callPair MgrOp.StartAllProcesses pm.StartAllProcesses
    if let some e := err then
      Print ("Error on process '" ++ errname ++ "': " ++ e ++ "\n")
  | Closure.remove name delay timerv => do
    Print ("process removed in " ++ fmtD delay ++ "s: " ++ name ++ "\n")
    recvTimer timerv
    let err ← callErr (MgrOp.RemoveProcess name) (pm.RemoveProcess name)
    if let some e := err then
      Print (e ++ "\n")

/-! ## `cobra` commands -/

/-- The validator `cobra.ExactArgs(n)`: an error unless there are exactly `n` arguments. -/
def ExactArgs (n : Nat) (args : List String) : Option String :=
  if args.length ≠ n then
    some ("accepts " ++ toString n ++ " arg(s), received " ++ toString args.length)
  else
    none

/-- The fields of a `cobra.Command` the file sets and that decide what runs:
`Use`, `Args` (`none` when the field is left unset) and `Run`. -/
structure Command where
  Use : String
  Args : Option (List String → Option String)
  Run : List String → Go Unit

/-- The method `(*cobra.Command).ValidateArgs`: no `Args` field accepts any arguments. -/
def Command.ValidateArgs (c : Command) (args : List String) : Option String :=
  match c.Args with
  | none => none
  | some f => f args

/-- Running a command on its positional arguments: `Run` is called only when
`ValidateArgs` returns no error, which is returned to the shell otherwise. -/
def Command.execute (c : Command) (args : List String) : Except String (Go Unit) :=
  match c.ValidateArgs args with
  | some err => Except.error err
  | none => Except.ok (c.Run args)

/-- The command `PMMetadataCmd`. -/
def PMMetadataCmd (pm : ProcessManager) : Command :=
  { Use := "metadata [node name]", Args := none, Run := PMMetadataCmd_Run pm }

/-- The command `PMStartCmd`. -/
def PMStartCmd : Command :=
  { Use := "start [node name] [optional: delay in secs]", Args := some (ExactArgs 1),
    Run := PMStartCmd_Run }

/-- The command `PMStopCmd`. -/
def PMStopCmd : Command :=
  { Use := "stop [node name] [optional: delay in secs]", Args := none, Run := PMStopCmd_Run }

/-- The command `PMKillCmd`. -/
def PMKillCmd : Command :=
  { Use := "kill [node name] [optional: delay in secs]", Args := none, Run := PMKillCmd_Run }

/-- The command `PMKillAllCmd`. -/
def PMKillAllCmd : Command :=
  { Use := "killall [optional: delay in secs]", Args := none, Run := PMKillAllCmd_Run }

/-- The command `PMStopAllCmd`. -/
def PMStopAllCmd : Command :=
  { Use := "stopall [optional: delay in secs]", Args := none, Run := PMStopAllCmd_Run }

/-- The command `PMStartAllCmd`. -/
def PMStartAllCmd : Command :=
  { Use := "startall [optional: delay in secs]", Args := none, Run := PMStartAllCmd_Run }

/-- The command `PMRemoveCmd`. -/
def PMRemoveCmd : Command :=
  { Use := "remove [node name] [optional: delay in secs]", Args := none, Run := PMRemoveCmd_Run }

/-- The command registered for each lifecycle operation. -/
def command : Cmd → Command
  | Cmd.start => PMStartCmd
  | Cmd.stop => PMStopCmd
  | Cmd.kill => PMKillCmd
  | Cmd.remove => PMRemoveCmd
  | Cmd.startall => PMStartAllCmd
  | Cmd.stopall => PMStopAllCmd
  | Cmd.killall => PMKillAllCmd

/-- The `Run` function registered for each lifecycle operation. -/
def handler (k : Cmd) (args : List String) : Go Unit := (command k).Run args

/-! ## Notions used to state the properties -/

/-- The function literal of command `k` capturing `name`, `delay` and `timerv`
(the aggregate commands capture no name). -/
def Closure.make (k : Cmd) (name : String) (delay : Int) (timerv : Timer) : Closure :=
  match k with
  | Cmd.start => Closure.start name delay timerv
  | Cmd.stop => Closure.stop name delay timerv
  | Cmd.kill => Closure.kill name delay timerv
  | Cmd.remove => Closure.remove name delay timerv
  | Cmd.startall => Closure.startall delay timerv
  | Cmd.stopall => Closure.stopall delay timerv
  | Cmd.killall => Closure.killall delay timerv

/-- Whether the command takes a node name as its first argument. -/
def Cmd.takesName : Cmd → Bool
  | Cmd.start | Cmd.stop | Cmd.kill | Cmd.remove => true
  | _ => false

/-- The delay argument of a command, when present: `args[1]` for the commands that
take a name, `args[0]` for the aggregate commands. -/
def delayArg (k : Cmd) (args : List String) : Option String :=
  if k.takesName then args.get? 1 else args.get? 0

/-- The delay, in seconds, that a delay argument stands for: `v` when the argument is
present, `ParseInt` returns `v` with no error and `v > 0`; otherwise `0`. -/
def delayOf (a : Option String) : Int :=
  match a with
  | none => 0
  | some s => if (ParseInt s).2 = none ∧ (ParseInt s).1 > 0 then (ParseInt s).1 else 0

/-- An argument list the command accepts: it passes the `Args` validator of the
command and, for a command that takes a name, `args[0]` is present and not empty. -/
def accepted (k : Cmd) (args : List String) : Prop :=
  (command k).ValidateArgs args = none ∧
    (k.takesName = true → ∃ name, args.get? 0 = some name ∧ name ≠ "")

/-- The delay captured by a function literal. -/
def Closure.delay : Closure → Int
  | Closure.start _ d _ | Closure.stop _ d _ | Closure.kill _ d _ | Closure.remove _ d _ => d
  | Closure.startall d _ | Closure.stopall d _ | Closure.killall d _ => d

/-- The timer captured by a function literal. -/
def Closure.timerv : Closure → Timer
  | Closure.start _ _ t | Closure.stop _ _ t | Closure.kill _ _ t | Closure.remove _ _ t => t
  | Closure.startall _ t | Closure.stopall _ t | Closure.killall _ t => t

/-- The command whose handler contains the function literal. -/
def Closure.kind : Closure → Cmd
  | Closure.start _ _ _ => Cmd.start
  | Closure.stop _ _ _ => Cmd.stop
  | Closure.kill _ _ _ => Cmd.kill
  | Closure.remove _ _ _ => Cmd.remove
  | Closure.startall _ _ => Cmd.startall
  | Closure.stopall _ _ => Cmd.stopall
  | Closure.killall _ _ => Cmd.killall

/-- The name captured by a function literal (the aggregate commands capture none). -/
def Closure.name : Closure → String
  | Closure.start n _ _ | Closure.stop n _ _ | Closure.kill n _ _ | Closure.remove n _ _ => n
  | Closure.startall _ _ | Closure.stopall _ _ | Closure.killall _ _ => ""

/-- The manager operation that corresponds to a command, on the name `name`. -/
def Cmd.op (k : Cmd) (name : String) : MgrOp :=
  match k with
  | Cmd.start => MgrOp.StartProcess name
  | Cmd.stop => MgrOp.StopProcess name
  | Cmd.kill => MgrOp.KillProcess name
  | Cmd.remove => MgrOp.RemoveProcess name
  | Cmd.startall => MgrOp.StartAllProcesses
  | Cmd.stopall => MgrOp.StopAllProcesses
  | Cmd.killall => MgrOp.KillAllProcesses

/-- The manager operation that corresponds to the command of a function literal. -/
def Closure.op (f : Closure) : MgrOp := f.kind.op f.name

/-- What the manager returns to a call: the name or metadata (empty for the
operations that return only an error) and the error. -/
def ProcessManager.returns (pm : ProcessManager) : MgrOp → String × Option String
  | MgrOp.StartProcess name => ("", pm.StartProcess name)
  | MgrOp.StopProcess name => ("", pm.StopProcess name)
  | MgrOp.KillProcess name => ("", pm.KillProcess name)
  | MgrOp.RemoveProcess name => ("", pm.RemoveProcess name)
  | MgrOp.StartAllProcesses => pm.StartAllProcesses
  | MgrOp.StopAllProcesses => pm.StopAllProcesses
  | MgrOp.KillAllProcesses => pm.KillAllProcesses
  | MgrOp.Metadata name => pm.Metadata name

/-- The function literals a run started with `go`, in order. -/
def scheduled (r : Go Unit) : List Closure :=
  r.trace.filterMap fun e => match e with
    | Effect.go f => some f
    | _ => none

/-- The effect is a call on the manager. -/
def Effect.isCall : Effect → Bool
  | Effect.call _ => true
  | _ => false

/-- The effect is a wait (a receive from a timer channel). -/
def Effect.isWait : Effect → Bool
  | Effect.recv _ => true
  | _ => false

/-- The error line a command writes for the failing name `errname` and the error text `e`. -/
def errorLine (k : Cmd) (errname e : String) : String :=
  if k.takesName then e ++ "\n" else "Error on process '" ++ errname ++ "': " ++ e ++ "\n"

/-- The value of a run of decimal digits read after the digits of `n`. -/
def digitsValue : List Char → Nat → Nat
  | [], n => n
  | c :: cs, n => digitsValue cs (n * 10 + (c.toNat - 48))

/-- Every character is one of `0` .. `9`. -/
def allDigits (cs : List Char) : Bool := cs.all fun c => decide ('0' ≤ c ∧ c ≤ '9')

/-- The string is a base-10 signed 64-bit integer: an optional sign `+` or `-`, then one
or more digits `0` .. `9`, whose value lies between `-2^63` and `2^63 - 1`. -/
def decimalInt64 (s : String) : Option Int :=
  let neg := decide (s.data.head? = some '-')
  let ds := if s.data.head? = some '-' ∨ s.data.head? = some '+' then s.data.tail else s.data
  if ds ≠ [] ∧ allDigits ds = true then
    let v : Int := if neg then -(digitsValue ds 0 : Int) else (digitsValue ds 0 : Int)
    if -9223372036854775808 ≤ v ∧ v ≤ 9223372036854775807 then some v else none
  else
    none

/-! ## Evaluation lemmas for the trace monad -/

theorem Go.bind_some {α β : Type} (t : List Effect) (a : α) (f : α → Go β) :
    (Go.mk t (some a) >>= f) = Go.mk (t ++ (f a).trace) (f a).val := rfl

theorem Go.bind_none {α β : Type} (t : List Effect) (f : α → Go β) :
    (Go.mk t (none : Option α) >>= f) = Go.mk t none := rfl

theorem Go.pure_eq {α : Type} (a : α) : (pure a : Go α) = Go.mk [] (some a) := rfl

/-! ## `ParseInt` accepts exactly the decimal 64-bit integers -/

theorem char_le_iff (a b : Char) : a ≤ b ↔ a.toNat ≤ b.toNat := by
  rw [Char.le_def, UInt32.le_def, BitVec.le_def]
  rfl

theorem le_digitsValue (cs : List Char) (n : Nat) : n ≤ digitsValue cs n := by
  induction cs generalizing n with
  | nil => exact le_rfl
  | cons c cs ih =>
    have := ih (n * 10 + (c.toNat - 48))
    simp only [digitsValue]
    omega

theorem ParseUintLoop_ok_iff (cs : List Char) (n m : Nat) (hn : n ≤ maxUint64) :
    ParseUintLoop cs n = (m, none) ↔
      allDigits cs = true ∧ digitsValue cs n = m ∧ m ≤ maxUint64 := by
  induction cs generalizing n with
  | nil =>
    simp only [ParseUintLoop, allDigits, List.all_nil, digitsValue, Prod.mk.injEq, and_true,
      true_and]
    constructor
    · intro h; exact ⟨h, h ▸ hn⟩
    · intro h; exact h.1
  | cons c cs ih =>
    by_cases hc : '0' ≤ c ∧ c ≤ '9'
    · have hd : 48 ≤ c.toNat ∧ c.toNat ≤ 57 := by
        rw [char_le_iff, char_le_iff] at hc; exact hc
      have hall : allDigits (c :: cs) = allDigits cs := by
        simp [allDigits, hc]
      rw [hall]
      simp only [ParseUintLoop, hc, and_self, if_true, digitsValue]
      have h0 : ('0' : Char).toNat = 48 := rfl
      rw [h0]
      unfold maxUint64 at hn ⊢
      by_cases hcut : n ≥ 18446744073709551615 / 10 + 1
      · rw [if_pos hcut]
        have hge := le_digitsValue cs (n * 10 + (c.toNat - 48))
        constructor
        · intro h; simp at h
        · rintro ⟨-, h1, h2⟩; omega
      · rw [if_neg hcut]
        have hw : wrapUint64 (n * 10) = n * 10 := by
          unfold wrapUint64; omega
        simp only [hw]
        by_cases hov : n * 10 + (c.toNat - 48) ≥ 18446744073709551616
        · have hlt : wrapUint64 (n * 10 + (c.toNat - 48)) < n * 10 := by
            unfold wrapUint64; omega
          rw [if_pos (Or.inl hlt)]
          have hge := le_digitsValue cs (n * 10 + (c.toNat - 48))
          constructor
          · intro h; simp at h
          · rintro ⟨-, h1, h2⟩; omega
        · have hw1 : wrapUint64 (n * 10 + (c.toNat - 48)) = n * 10 + (c.toNat - 48) := by
            unfold wrapUint64; omega
          rw [hw1, if_neg (by omega)]
          exact ih (n * 10 + (c.toNat - 48)) (by unfold maxUint64; omega)
    · have hall : allDigits (c :: cs) = false := by
        simp [allDigits, hc]
      rw [hall]
      simp [ParseUintLoop, hc]

theorem ParseUint_ok_iff (ds : List Char) (m : Nat) :
    ParseUint ds = (m, none) ↔
      ds ≠ [] ∧ allDigits ds = true ∧ digitsValue ds 0 = m ∧ m ≤ maxUint64 := by
  unfold ParseUint
  by_cases h : ds = []
  · simp [h]
  · rw [if_neg h, ParseUintLoop_ok_iff ds 0 m (by unfold maxUint64; omega)]
    simp [h]

theorem ParseUintLoop_range (cs : List Char) (n : Nat)
    (h : (ParseUintLoop cs n).2 = some NumError.ErrRange) :
    (ParseUintLoop cs n).1 = maxUint64 := by
  induction cs generalizing n with
  | nil => simp [ParseUintLoop] at h
  | cons c cs ih =>
    simp only [ParseUintLoop] at h ⊢
    split_ifs at h ⊢ with h1 h2 h3
    · rfl
    · rfl
    · exact ih _ h
    · simp at h

theorem ParseUint_range (ds : List Char) (h : (ParseUint ds).2 = some NumError.ErrRange) :
    (ParseUint ds).1 = maxUint64 := by
  unfold ParseUint at h ⊢
  split_ifs at h ⊢ with h1
  · simp at h
  · exact ParseUintLoop_range ds 0 h

theorem ParseInt_ok_iff (s : String) (v : Int) :
    ParseInt s = (v, none) ↔ decimalInt64 s = some v := by
  unfold ParseInt decimalInt64
  rcases hs : s.data with _ | ⟨c, rest⟩
  · simp
  · simp only [List.head?_cons, Option.some.injEq, List.tail_cons]
    have hbody : (if c = '+' then rest else if c = '-' then rest else c :: rest) =
        (if c = '-' ∨ c = '+' then rest else c :: rest) := by
      by_cases h1 : c = '+' <;> by_cases h2 : c = '-' <;> simp [h1, h2]
    rw [hbody]
    generalize (if c = '-' ∨ c = '+' then rest else c :: rest) = ds
    have hA := ParseUint_ok_iff ds
    have hB := ParseUint_range ds
    rcases hr : ParseUint ds with ⟨m, _ | e⟩
    · -- no error
      rw [hr] at hA hB
      obtain ⟨hne, hall, hval, hmax⟩ := (hA m).1 rfl
      simp only [hne, hall, ne_eq, not_false_eq_true, and_self, if_true, hval]
      unfold maxUint64 at hmax
      by_cases hneg : c = '-'
      · by_cases hm : m > 9223372036854775808
        · simp [hneg, hm]
        · have hw : wrapInt64 (-(wrapInt64 (m : Int))) = -(m : Int) := by
            unfold wrapInt64; omega
          simp [hneg, hm, hw]
          intros; omega
      · by_cases hm : m ≥ 9223372036854775808
        · simp [hneg, hm]
          intros; omega
        · have hw : wrapInt64 (m : Int) = (m : Int) := by
            unfold wrapInt64; omega
          simp [hneg, hm, hw]
          intros; omega
    · -- an error
      rw [hr] at hA hB
      have hno : ds ≠ [] → allDigits ds = true → ¬ digitsValue ds 0 ≤ 18446744073709551615 := by
        intro a b c2
        have := (hA (digitsValue ds 0)).2 ⟨a, b, rfl, c2⟩
        simp at this
      have hm : e = NumError.ErrRange → m = 18446744073709551615 := fun he => hB (by rw [he])
      by_cases hneg : c = '-'
      · cases e
        · simp [hneg]
          intro a b c2; have := hno a b; omega
        · have hm2 := hm rfl
          subst hm2
          simp [hneg]
          intro a b c2; have := hno a b; omega
      · cases e
        · simp [hneg]
          intro a b c2; have := hno a b; omega
        · have hm2 := hm rfl
          subst hm2
          simp [hneg]
          intro a b c2; have := hno a b; omega

/-! ## What each handler does on each shape of argument list -/

theorem PMStartCmd_Run_named (name : String) (rest : List String) (h : name ≠ "") :
    PMStartCmd_Run (name :: rest) =
      Go.mk [Effect.newTimer ⟨mulDuration (delayOf (rest.get? 0)) Second⟩,
        Effect.go (Closure.start name (delayOf (rest.get? 0))
          ⟨mulDuration (delayOf (rest.get? 0)) Second⟩)] (some ()) := by
  cases rest with
  | nil =>
    simp [PMStartCmd_Run, index, NewTimer, goFunc, emit, Help, Go.bind_some, Go.bind_none,
      Go.pure_eq, h, delayOf]
  | cons b rest =>
    simp [PMStartCmd_Run, index, NewTimer, goFunc, emit, Help, Go.bind_some, Go.bind_none,
      Go.pure_eq, h, delayOf]
    split_ifs <;> simp

theorem PMStopCmd_Run_named (name : String) (rest : List String) (h : name ≠ "") :
    PMStopCmd_Run (name :: rest) =
      Go.mk [Effect.newTimer ⟨mulDuration (delayOf (rest.get? 0)) Second⟩,
        Effect.go (Closure.stop name (delayOf (rest.get? 0))
          ⟨mulDuration (delayOf (rest.get? 0)) Second⟩)] (some ()) := by
  cases rest with
  | nil =>
    simp [PMStopCmd_Run, index, NewTimer, goFunc, emit, Help, Go.bind_some, Go.bind_none,
      Go.pure_eq, h, delayOf]
  | cons b rest =>
    simp [PMStopCmd_Run, index, NewTimer, goFunc, emit, Help, Go.bind_some, Go.bind_none,
      Go.pure_eq, h, delayOf]
    split_ifs <;> simp

theorem PMKillCmd_Run_named (name : String) (rest : List String) (h : name ≠ "") :
    PMKillCmd_Run (name :: rest) =
      Go.mk [Effect.newTimer ⟨mulDuration (delayOf (rest.get? 0)) Second⟩,
        Effect.go (Closure.kill name (delayOf (rest.get? 0))
          ⟨mulDuration (delayOf (rest.get? 0)) Second⟩)] (some ()) := by
  cases rest with
  | nil =>
    simp [PMKillCmd_Run, index, NewTimer, goFunc, emit, Help, Go.bind_some, Go.bind_none,
      Go.pure_eq, h, delayOf]
  | cons b rest =>
    simp [PMKillCmd_Run, index, NewTimer, goFunc, emit, Help, Go.bind_some, Go.bind_none,
      Go.pure_eq, h, delayOf]
    split_ifs <;> simp

theorem PMRemoveCmd_Run_named (name : String) (rest : List String) (h : name ≠ "") :
    PMRemoveCmd_Run (name :: rest) =
      Go.mk [Effect.newTimer ⟨mulDuration (delayOf (rest.get? 0)) Second⟩,
        Effect.go (Closure.remove name (delayOf (rest.get? 0))
          ⟨mulDuration (delayOf (rest.get? 0)) Second⟩)] (some ()) := by
  cases rest with
  | nil =>
    simp [PMRemoveCmd_Run, index, NewTimer, goFunc, emit, Help, Go.bind_some, Go.bind_none,
      Go.pure_eq, h, delayOf]
  | cons b rest =>
    simp [PMRemoveCmd_Run, index, NewTimer, goFunc, emit, Help, Go.bind_some, Go.bind_none,
      Go.pure_eq, h, delayOf]
    split_ifs <;> simp

theorem PMStartCmd_Run_nil : PMStartCmd_Run [] = Go.mk [Effect.help] (some ()) := by
  simp [PMStartCmd_Run, index, Help, emit, Go.bind_some, Go.bind_none, Go.pure_eq]

theorem PMStartCmd_Run_unnamed (rest : List String) :
    PMStartCmd_Run ("" :: rest) = Go.mk [Effect.help] (some ()) := by
  simp [PMStartCmd_Run, index, Help, emit, Go.bind_some, Go.bind_none, Go.pure_eq]

theorem PMStopCmd_Run_nil : PMStopCmd_Run [] = Go.mk [Effect.help] (some ()) := by
  simp [PMStopCmd_Run, index, Help, emit, Go.bind_some, Go.bind_none, Go.pure_eq]

theorem PMStopCmd_Run_unnamed (rest : List String) :
    PMStopCmd_Run ("" :: rest) = Go.mk [Effect.help] (some ()) := by
  simp [PMStopCmd_Run, index, Help, emit, Go.bind_some, Go.bind_none, Go.pure_eq]

theorem PMKillCmd_Run_nil : PMKillCmd_Run [] = Go.mk [Effect.help] (some ()) := by
  simp [PMKillCmd_Run, index, Help, emit, Go.bind_some, Go.bind_none, Go.pure_eq]

theorem PMKillCmd_Run_unnamed (rest : List String) :
    PMKillCmd_Run ("" :: rest) = Go.mk [Effect.help] (some ()) := by
  simp [PMKillCmd_Run, index, Help, emit, Go.bind_some, Go.bind_none, Go.pure_eq]

theorem PMRemoveCmd_Run_nil : PMRemoveCmd_Run [] = Go.mk [Effect.help] none := by
  simp [PMRemoveCmd_Run, index, Help, emit, Go.bind_some, Go.bind_none, Go.pure_eq]

theorem PMRemoveCmd_Run_unnamed (rest : List String) :
    PMRemoveCmd_Run ("" :: rest) =
      Go.mk [Effect.help, Effect.newTimer ⟨mulDuration (delayOf (rest.get? 0)) Second⟩,
        Effect.go (Closure.remove "" (delayOf (rest.get? 0))
          ⟨mulDuration (delayOf (rest.get? 0)) Second⟩)] (some ()) := by
  cases rest with
  | nil =>
    simp [PMRemoveCmd_Run, index, NewTimer, goFunc, emit, Help, Go.bind_some, Go.bind_none,
      Go.pure_eq, delayOf]
  | cons b rest =>
    simp [PMRemoveCmd_Run, index, NewTimer, goFunc, emit, Help, Go.bind_some, Go.bind_none,
      Go.pure_eq, delayOf]
    split_ifs <;> simp

theorem PMStartAllCmd_Run_eq (args : List String) :
    PMStartAllCmd_Run args =
      Go.mk [Effect.newTimer ⟨mulDuration (delayOf (args.get? 0)) Second⟩,
        Effect.go (Closure.startall (delayOf (args.get? 0))
          ⟨mulDuration (delayOf (args.get? 0)) Second⟩)] (some ()) := by
  cases args with
  | nil =>
    simp [PMStartAllCmd_Run, index, NewTimer, goFunc, emit, Go.bind_some, Go.bind_none,
      Go.pure_eq, delayOf]
  | cons b rest =>
    simp [PMStartAllCmd_Run, index, NewTimer, goFunc, emit, Go.bind_some, Go.bind_none,
      Go.pure_eq, delayOf]
    split_ifs <;> simp

theorem PMStopAllCmd_Run_eq (args : List String) :
    PMStopAllCmd_Run args =
      Go.mk [Effect.newTimer ⟨mulDuration (delayOf (args.get? 0)) Second⟩,
        Effect.go (Closure.stopall (delayOf (args.get? 0))
          ⟨mulDuration (delayOf (args.get? 0)) Second⟩)] (some ()) := by
  cases args with
  | nil =>
    simp [PMStopAllCmd_Run, index, NewTimer, goFunc, emit, Go.bind_some, Go.bind_none,
      Go.pure_eq, delayOf]
  | cons b rest =>
    simp [PMStopAllCmd_Run, index, NewTimer, goFunc, emit, Go.bind_some, Go.bind_none,
      Go.pure_eq, delayOf]
    split_ifs <;> simp

theorem PMKillAllCmd_Run_eq (args : List String) :
    PMKillAllCmd_Run args =
      Go.mk [Effect.newTimer ⟨mulDuration (delayOf (args.get? 0)) Second⟩,
        Effect.go (Closure.killall (delayOf (args.get? 0))
          ⟨mulDuration (delayOf (args.get? 0)) Second⟩)] (some ()) := by
  cases args with
  | nil =>
    simp [PMKillAllCmd_Run, index, NewTimer, goFunc, emit, Go.bind_some, Go.bind_none,
      Go.pure_eq, delayOf]
  | cons b rest =>
    simp [PMKillAllCmd_Run, index, NewTimer, goFunc, emit, Go.bind_some, Go.bind_none,
      Go.pure_eq, delayOf]
    split_ifs <;> simp

theorem PMMetadataCmd_Run_nil (pm : ProcessManager) :
    PMMetadataCmd_Run pm [] = Go.mk [Effect.help] (some ()) := by
  simp [PMMetadataCmd_Run, index, Help, emit, Go.bind_some, Go.bind_none, Go.pure_eq]

theorem PMMetadataCmd_Run_unnamed (pm : ProcessManager) (rest : List String) :
    PMMetadataCmd_Run pm ("" :: rest) = Go.mk [Effect.help] (some ()) := by
  simp [PMMetadataCmd_Run, index, Help, emit, Go.bind_some, Go.bind_none, Go.pure_eq]

theorem PMMetadataCmd_Run_named (pm : ProcessManager) (name : String) (rest : List String)
    (h : name ≠ "") :
    PMMetadataCmd_Run pm (name :: rest) =
      Go.mk (Effect.call (MgrOp.Metadata name) ::
        ((match (pm.Metadata name).2 with
          | some e => [Effect.print (e ++ "\n")]
          | none => []) ++ [Effect.print ((pm.Metadata name).1 ++ "\n")])) (some ()) := by
  rcases hm : pm.Metadata name with ⟨m, _ | e⟩ <;>
    simp [PMMetadataCmd_Run, index, callPair, Print, Help, emit, Go.bind_some, Go.bind_none,
      Go.pure_eq, h, hm]

/-! ## The handlers on accepted argument lists, and the function literals -/

theorem accepted_named (k : Cmd) (args : List String) (hk : k.takesName = true)
    (h : accepted k args) : ∃ name rest, args = name :: rest ∧ name ≠ "" := by
  obtain ⟨name, hn, hne⟩ := h.2 hk
  cases args with
  | nil => simp at hn
  | cons a rest =>
    simp at hn
    exact ⟨a, rest, rfl, hn ▸ hne⟩

theorem handler_accepted (k : Cmd) (args : List String) (h : accepted k args) :
    handler k args =
      Go.mk [Effect.newTimer ⟨mulDuration (delayOf (delayArg k args)) Second⟩,
        Effect.go (Closure.make k (args.getD 0 "") (delayOf (delayArg k args))
          ⟨mulDuration (delayOf (delayArg k args)) Second⟩)] (some ()) := by
  cases k
  case start =>
    obtain ⟨name, rest, rfl, hne⟩ := accepted_named Cmd.start args rfl h
    simpa [handler, command, PMStartCmd, delayArg, Cmd.takesName, Closure.make] using
      PMStartCmd_Run_named name rest hne
  case stop =>
    obtain ⟨name, rest, rfl, hne⟩ := accepted_named Cmd.stop args rfl h
    simpa [handler, command, PMStopCmd, delayArg, Cmd.takesName, Closure.make] using
      PMStopCmd_Run_named name rest hne
  case kill =>
    obtain ⟨name, rest, rfl, hne⟩ := accepted_named Cmd.kill args rfl h
    simpa [handler, command, PMKillCmd, delayArg, Cmd.takesName, Closure.make] using
      PMKillCmd_Run_named name rest hne
  case remove =>
    obtain ⟨name, rest, rfl, hne⟩ := accepted_named Cmd.remove args rfl h
    simpa [handler, command, PMRemoveCmd, delayArg, Cmd.takesName, Closure.make] using
      PMRemoveCmd_Run_named name rest hne
  case startall =>
    simpa [handler, command, PMStartAllCmd, delayArg, Cmd.takesName, Closure.make] using
      PMStartAllCmd_Run_eq args
  case stopall =>
    simpa [handler, command, PMStopAllCmd, delayArg, Cmd.takesName, Closure.make] using
      PMStopAllCmd_Run_eq args
  case killall =>
    simpa [handler, command, PMKillAllCmd, delayArg, Cmd.takesName, Closure.make] using
      PMKillAllCmd_Run_eq args

theorem accepted_iff (k : Cmd) (args : List String) :
    accepted k args ↔
      (command k).ValidateArgs args = none ∧ (handler k args).val = some () ∧
        Effect.help ∉ (handler k args).trace := by
  constructor
  · intro h
    refine ⟨h.1, ?_, ?_⟩
    · rw [handler_accepted k args h]
    · rw [handler_accepted k args h]; simp
  · rintro ⟨hv, hval, hhelp⟩
    refine ⟨hv, fun hk => ?_⟩
    rcases args with _ | ⟨a, rest⟩
    · exfalso
      cases k
      case start => exact hhelp (by simp [handler, command, PMStartCmd, PMStartCmd_Run_nil])
      case stop => exact hhelp (by simp [handler, command, PMStopCmd, PMStopCmd_Run_nil])
      case kill => exact hhelp (by simp [handler, command, PMKillCmd, PMKillCmd_Run_nil])
      case remove => exact hhelp (by simp [handler, command, PMRemoveCmd, PMRemoveCmd_Run_nil])
      all_goals simp [Cmd.takesName] at hk
    · refine ⟨a, rfl, fun ha => ?_⟩
      subst ha
      cases k
      case start =>
        exact hhelp (by simp [handler, command, PMStartCmd, PMStartCmd_Run_unnamed])
      case stop => exact hhelp (by simp [handler, command, PMStopCmd, PMStopCmd_Run_unnamed])
      case kill => exact hhelp (by simp [handler, command, PMKillCmd, PMKillCmd_Run_unnamed])
      case remove =>
        exact hhelp (by simp [handler, command, PMRemoveCmd, PMRemoveCmd_Run_unnamed])
      all_goals simp [Cmd.takesName] at hk

theorem mulDuration_Second_exact (v : Int) (h0 : 0 ≤ v) (h1 : v ≤ 9223372036) :
    mulDuration v Second = v * 1000000000 := by
  unfold mulDuration Second wrapInt64
  omega

theorem ParseInt_samples :
    ParseInt "42" = (42, none) ∧ ParseInt "+42" = (42, none) ∧ ParseInt "-42" = (-42, none) ∧
    ParseInt "0" = (0, none) ∧ ParseInt "4x" = (0, some NumError.ErrSyn) ∧
    ParseInt "" = (0, some NumError.ErrSyn) ∧ ParseInt "-" = (0, some NumError.ErrSyn) ∧
    ParseInt " 5" = (0, some NumError.ErrSyn) ∧
    ParseInt "9223372036854775807" = (9223372036854775807, none) ∧
    ParseInt "9223372036854775808" = (9223372036854775807, some NumError.ErrRange) ∧
    ParseInt "-9223372036854775808" = (-9223372036854775808, none) ∧
    ParseInt "-9223372036854775809" = (-9223372036854775808, some NumError.ErrRange) ∧
    ParseInt "99999999999999999999999" = (9223372036854775807, some NumError.ErrRange) := by
  decide

theorem decimalInt64_samples :
    decimalInt64 "42" = some 42 ∧ decimalInt64 "+42" = some 42 ∧
    decimalInt64 "-42" = some (-42) ∧ decimalInt64 "4x" = none ∧ decimalInt64 "" = none ∧
    decimalInt64 "-" = none ∧ decimalInt64 "9223372036854775808" = none ∧
    decimalInt64 "-9223372036854775808" = some (-9223372036854775808) := by
  decide

theorem delayOf_of_parse (a : Option String) (s : String) (v : Int) (ha : a = some s)
    (hp : ParseInt s = (v, none)) (hv : 0 < v) : delayOf a = v := by
  subst ha
  simp [delayOf, hp, hv]

theorem delayOf_otherwise (a : Option String)
    (h : ¬ ∃ s v, a = some s ∧ ParseInt s = (v, none) ∧ 0 < v) : delayOf a = 0 := by
  cases a with
  | none => rfl
  | some s =>
    simp only [delayOf]
    split_ifs with hc
    · exact absurd ⟨s, (ParseInt s).1, rfl, Prod.ext rfl hc.1, hc.2⟩ h
    · rfl

theorem Closure.make_kind (k : Cmd) (name : String) (d : Int) (t : Timer) :
    (Closure.make k name d t).kind = k := by
  cases k <;> rfl

theorem Closure.make_delay (k : Cmd) (name : String) (d : Int) (t : Timer) :
    (Closure.make k name d t).delay = d := by
  cases k <;> rfl

theorem Closure.make_timerv (k : Cmd) (name : String) (d : Int) (t : Timer) :
    (Closure.make k name d t).timerv = t := by
  cases k <;> rfl

theorem Closure.make_op (k : Cmd) (name : String) (d : Int) (t : Timer) :
    (Closure.make k name d t).op = k.op name := by
  cases k <;> rfl

theorem Closure.body_eq (pm : ProcessManager) (f : Closure) :
    ∃ info, f.body pm =
      Go.mk ([Effect.print info, Effect.recv f.timerv, Effect.call f.op] ++
        (match (pm.returns f.op).2 with
          | none => []
          | some e => [Effect.print (errorLine f.kind (pm.returns f.op).1 e)])) (some ()) := by
  cases f with
  | start name delay timerv =>
    refine ⟨"process will start in " ++ fmtD delay ++ "s: " ++ name ++ "\n", ?_⟩
    rcases hm : pm.StartProcess name with _ | e <;>
      simp [Closure.body, Print, recvTimer, callErr, emit, Go.bind_some, Go.pure_eq, hm,
        Closure.op, Closure.kind, Closure.name, Closure.timerv, Cmd.op, ProcessManager.returns,
        errorLine, Cmd.takesName]
  | stop name delay timerv =>
    refine ⟨"process will stop in " ++ fmtD delay ++ "s: " ++ name ++ "\n", ?_⟩
    rcases hm : pm.StopProcess name with _ | e <;>
      simp [Closure.body, Print, recvTimer, callErr, emit, Go.bind_some, Go.pure_eq, hm,
        Closure.op, Closure.kind, Closure.name, Closure.timerv, Cmd.op, ProcessManager.returns,
        errorLine, Cmd.takesName]
  | kill name delay timerv =>
    refine ⟨"process will stop in " ++ fmtD delay ++ "s: " ++ name ++ "\n", ?_⟩
    rcases hm : pm.KillProcess name with _ | e <;>
      simp [Closure.body, Print, recvTimer, callErr, emit, Go.bind_some, Go.pure_eq, hm,
        Closure.op, Closure.kind, Closure.name, Closure.timerv, Cmd.op, ProcessManager.returns,
        errorLine, Cmd.takesName]
  | remove name delay timerv =>
    refine ⟨"process removed in " ++ fmtD delay ++ "s: " ++ name ++ "\n", ?_⟩
    rcases hm : pm.RemoveProcess name with _ | e <;>
      simp [Closure.body, Print, recvTimer, callErr, emit, Go.bind_some, Go.pure_eq, hm,
        Closure.op, Closure.kind, Closure.name, Closure.timerv, Cmd.op, ProcessManager.returns,
        errorLine, Cmd.takesName]
  | startall delay timerv =>
    refine ⟨"All processes will start in " ++ fmtD delay ++ "s\n", ?_⟩
    rcases hm : pm.StartAllProcesses with ⟨n, _ | e⟩ <;>
      simp [Closure.body, Print, recvTimer, callPair, emit, Go.bind_some, Go.pure_eq, hm,
        Closure.op, Closure.kind, Closure.name, Closure.timerv, Cmd.op, ProcessManager.returns,
        errorLine, Cmd.takesName]
  | stopall delay timerv =>
    refine ⟨"all process will stop in " ++ fmtD delay ++ "s\n", ?_⟩
    rcases hm : pm.StopAllProcesses with ⟨n, _ | e⟩ <;>
      simp [Closure.body, Print, recvTimer, callPair, emit, Go.bind_some, Go.pure_eq, hm,
        Closure.op, Closure.kind, Closure.name, Closure.timerv, Cmd.op, ProcessManager.returns,
        errorLine, Cmd.takesName]
  | killall delay timerv =>
    refine ⟨"all process will stop in " ++ fmtD delay ++ "s\n", ?_⟩
    rcases hm : pm.KillAllProcesses with ⟨n, _ | e⟩ <;>
      simp [Closure.body, Print, recvTimer, callPair, emit, Go.bind_some, Go.pure_eq, hm,
        Closure.op, Closure.kind, Closure.name, Closure.timerv, Cmd.op, ProcessManager.returns,
        errorLine, Cmd.takesName]

theorem Closure.body_shape (pm : ProcessManager) (f : Closure) :
    ∃ info tail, f.body pm =
        Go.mk (Effect.print info :: Effect.recv f.timerv :: Effect.call f.op :: tail) (some ()) ∧
      ∀ e ∈ tail, e.isCall = false ∧ e.isWait = false := by
  obtain ⟨info, hb⟩ := Closure.body_eq pm f
  refine ⟨info, _, hb, ?_⟩
  intro e he
  generalize (pm.returns f.op).2 = r at he
  rcases r with _ | err
  · simp at he
  · have he2 : e = Effect.print (errorLine f.kind (pm.returns f.op).1 err) := by simpa using he
    subst he2
    exact ⟨rfl, rfl⟩

theorem Closure.body_message (pm : ProcessManager) (f : Closure) :
    ∃ pre post, (f.body pm).trace.head? =
      some (Effect.print (pre ++ toString f.delay ++ "s" ++ post)) := by
  have hs : ∀ a b x : String, a ++ b ++ "s: " ++ x ++ "\n" = a ++ b ++ "s" ++ (": " ++ x ++ "\n") := by
    intro a b x
    have h2 : ("s: " : String) = "s" ++ ": " := by decide
    rw [h2]
    simp only [String.append_assoc]
  cases f with
  | start name delay timerv =>
    exact ⟨"process will start in ", ": " ++ name ++ "\n", by
      rw [← hs]; rfl⟩
  | stop name delay timerv =>
    exact ⟨"process will stop in ", ": " ++ name ++ "\n", by
      rw [← hs]; rfl⟩
  | kill name delay timerv =>
    exact ⟨"process will stop in ", ": " ++ name ++ "\n", by
      rw [← hs]; rfl⟩
  | remove name delay timerv =>
    exact ⟨"process removed in ", ": " ++ name ++ "\n", by
      rw [← hs]; rfl⟩
  | startall delay timerv =>
    exact ⟨"All processes will start in ", "\n", by
      have h2 : ("s\n" : String) = "s" ++ "\n" := by decide
      show some (Effect.print ("All processes will start in " ++ fmtD delay ++ "s\n")) = _
      rw [h2, ← String.append_assoc]; rfl⟩
  | stopall delay timerv =>
    exact ⟨"all process will stop in ", "\n", by
      have h2 : ("s\n" : String) = "s" ++ "\n" := by decide
      show some (Effect.print ("all process will stop in " ++ fmtD delay ++ "s\n")) = _
      rw [h2, ← String.append_assoc]; rfl⟩
  | killall delay timerv =>
    exact ⟨"all process will stop in ", "\n", by
      have h2 : ("s\n" : String) = "s" ++ "\n" := by decide
      show some (Effect.print ("all process will stop in " ++ fmtD delay ++ "s\n")) = _
      rw [h2, ← String.append_assoc]; rfl⟩

theorem timer_of_small_delay (v : Int) (h0 : 0 ≤ v) (h1 : v ≤ 9223372036) :
    (Timer.mk (mulDuration v Second)).d = v * 1000000000 ∧
      (Timer.mk (mulDuration v Second)).firesAfter = v * 1000000000 := by
  have h := mulDuration_Second_exact v h0 h1
  refine ⟨h, ?_⟩
  unfold Timer.firesAfter
  simp only [h]
  split_ifs <;> omega

theorem accepted_stop_example : accepted Cmd.stop ["node1", "5"] :=
  ⟨rfl, fun _ => ⟨"node1", rfl, by decide⟩⟩

/-! ## Delay parsing -/

/-- C1 (as stated, refuted): `stop` with the empty argument list has no delay argument,
yet no operation is scheduled, so it is not the case that an operation is scheduled
with delay 0.  Moreover `kill node1 9223372037` parses the delay 9223372037 but creates
its timer with a negative duration, not with 9223372037 seconds. -/
theorem stop_without_name_schedules_nothing :
    delayArg Cmd.stop [] = none ∧ scheduled (handler Cmd.stop []) = [] ∧
      (¬ ∃ f, scheduled (handler Cmd.stop []) = [f] ∧ f.delay = 0) ∧
      decimalInt64 "9223372037" = some 9223372037 ∧
      handler Cmd.kill ["node1", "9223372037"] =
        Go.mk [Effect.newTimer ⟨-9223372036709551616⟩,
          Effect.go (Closure.kill "node1" 9223372037 ⟨-9223372036709551616⟩)] (some ()) := by
  have h : handler Cmd.stop [] = Go.mk [Effect.help] (some ()) := PMStopCmd_Run_nil
  refine ⟨rfl, ?_, ?_, by decide, by rfl⟩
  · rw [h]; rfl
  · rw [h]; rintro ⟨f, hf, -⟩; simp [scheduled] at hf

/-- C1 (amended): for stop, kill, remove, stopall, killall and startall (and for start
alike), on every accepted argument list the handler creates one timer and schedules exactly
one operation of that command, which receives from that timer.  The delay in seconds the
operation carries, which its message shows in decimal and from which the timer duration is
computed as `delay * time.Second`, is `v` when the delay argument is present, is a
base-10 signed 64-bit integer `v` and `v > 0`; the timer duration is then exactly
`v * 10^9` nanoseconds whenever `v ≤ 9223372036`.  In every other case the delay is `0`,
the timer duration is `0` and the operation is still scheduled. -/
theorem delay_parsing_on_accepted (pm : ProcessManager) (k : Cmd) (args : List String)
    (h : accepted k args) :
    ∃ f, handler k args = Go.mk [Effect.newTimer f.timerv, Effect.go f] (some ()) ∧
      scheduled (handler k args) = [f] ∧ f.kind = k ∧
      f.timerv = Timer.mk (mulDuration f.delay Second) ∧
      (∃ pre post, (f.body pm).trace.head? =
        some (Effect.print (pre ++ toString f.delay ++ "s" ++ post))) ∧
      (∀ s v, delayArg k args = some s → decimalInt64 s = some v → 0 < v →
        f.delay = v ∧
        (v ≤ 9223372036 →
          f.timerv.d = v * 1000000000 ∧ f.timerv.firesAfter = v * 1000000000)) ∧
      ((¬ ∃ s v, delayArg k args = some s ∧ decimalInt64 s = some v ∧ 0 < v) →
        f.delay = 0 ∧ f.timerv.d = 0 ∧ f.timerv.firesAfter = 0) := by
  refine ⟨Closure.make k (args.getD 0 "") (delayOf (delayArg k args))
    ⟨mulDuration (delayOf (delayArg k args)) Second⟩, ?_, ?_, Closure.make_kind _ _ _ _, ?_,
    Closure.body_message pm _, ?_, ?_⟩
  · rw [Closure.make_timerv]; exact handler_accepted k args h
  · rw [handler_accepted k args h]; rfl
  · rw [Closure.make_timerv, Closure.make_delay]
  · intro s v hs hp hv
    have hd : delayOf (delayArg k args) = v :=
      delayOf_of_parse _ s v hs ((ParseInt_ok_iff s v).2 hp) hv
    rw [Closure.make_delay, Closure.make_timerv, hd]
    exact ⟨rfl, fun hle => timer_of_small_delay v (le_of_lt hv) hle⟩
  · intro hno
    have hd : delayOf (delayArg k args) = 0 :=
      delayOf_otherwise _ fun ⟨s, v, hs, hp, hv⟩ =>
        hno ⟨s, v, hs, (ParseInt_ok_iff s v).1 hp, hv⟩
    rw [Closure.make_delay, Closure.make_timerv, hd]
    exact ⟨rfl, by decide, by decide⟩

/-- Witness of `delay_parsing_on_accepted` at `stop node1 5`, for a manager on which every
operation succeeds. -/
theorem delay_parsing_on_accepted_witness :
    accepted Cmd.stop ["node1", "5"] ∧
    ∃ f, handler Cmd.stop ["node1", "5"] =
        Go.mk [Effect.newTimer f.timerv, Effect.go f] (some ()) ∧
      scheduled (handler Cmd.stop ["node1", "5"]) = [f] ∧ f.kind = Cmd.stop ∧
      f.timerv = Timer.mk (mulDuration f.delay Second) ∧
      (∃ pre post, (f.body ⟨fun _ => none, fun _ => none, fun _ => none, fun _ => none,
          ("", none), ("", none), ("", none), fun _ => ("", none)⟩).trace.head? =
        some (Effect.print (pre ++ toString f.delay ++ "s" ++ post))) ∧
      (∀ s v, delayArg Cmd.stop ["node1", "5"] = some s → decimalInt64 s = some v → 0 < v →
        f.delay = v ∧
        (v ≤ 9223372036 →
          f.timerv.d = v * 1000000000 ∧ f.timerv.firesAfter = v * 1000000000)) ∧
      ((¬ ∃ s v, delayArg Cmd.stop ["node1", "5"] = some s ∧ decimalInt64 s = some v ∧ 0 < v) →
        f.delay = 0 ∧ f.timerv.d = 0 ∧ f.timerv.firesAfter = 0) :=
  ⟨accepted_stop_example,
    delay_parsing_on_accepted _ Cmd.stop ["node1", "5"] accepted_stop_example⟩

/-- At `stop node1 5` the timer is created with 5 000 000 000 ns and the message reads
`process will stop in 5s: node1`. -/
theorem stop_node1_5_waits_five_seconds (pm : ProcessManager) :
    handler Cmd.stop ["node1", "5"] =
      Go.mk [Effect.newTimer ⟨5000000000⟩,
        Effect.go (Closure.stop "node1" 5 ⟨5000000000⟩)] (some ()) ∧
    (Timer.mk 5000000000).firesAfter = 5000000000 ∧
    ((Closure.stop "node1" 5 ⟨5000000000⟩).body pm).trace.head? =
      some (Effect.print "process will stop in 5s: node1\n") :=
  ⟨by rfl, by decide, rfl⟩

/-! ## The start command -/

/-- C2 (evaluation at the failing input): `start` with two arguments, such as
`start node1 5`, is rejected by the `Args` validator of `PMStartCmd`, so `Run` is not
called and nothing is scheduled, although `Run` itself on `node1 5` would schedule
`StartProcess("node1")` with a delay of 5 seconds. -/
theorem start_rejects_delay_argument :
    (∀ name d : String,
      PMStartCmd.execute [name, d] = Except.error "accepts 1 arg(s), received 2") ∧
    PMStartCmd.execute ["node1", "5"] = Except.error "accepts 1 arg(s), received 2" ∧
    PMStartCmd_Run ["node1", "5"] =
      Go.mk [Effect.newTimer ⟨5000000000⟩,
        Effect.go (Closure.start "node1" 5 ⟨5000000000⟩)] (some ()) :=
  ⟨fun name d => by
      have hv : PMStartCmd.ValidateArgs [name, d] = some "accepts 1 arg(s), received 2" := by
        simp only [Command.ValidateArgs, PMStartCmd, ExactArgs, List.length_cons,
          List.length_nil]
        decide
      simp only [Command.execute, hv],
    by rfl, by rfl⟩

/-! ## Non-blocking handlers -/

/-- C3: on every accepted argument list, a lifecycle handler creates one timer, starts one
function literal that captures only that timer, the name and the delay, and returns; it
makes no call on the manager and waits for nothing. -/
theorem lifecycle_handler_only_schedules (k : Cmd) (args : List String) (h : accepted k args) :
    ∃ t d, handler k args =
        Go.mk [Effect.newTimer t, Effect.go (Closure.make k (args.getD 0 "") d t)] (some ()) ∧
      ∀ e ∈ (handler k args).trace, e.isCall = false ∧ e.isWait = false := by
  refine ⟨_, _, handler_accepted k args h, ?_⟩
  rw [handler_accepted k args h]
  intro e he
  simp only [List.mem_cons, List.mem_singleton, List.not_mem_nil, or_false] at he
  rcases he with rfl | rfl <;> exact ⟨rfl, rfl⟩

/-- Witness of `lifecycle_handler_only_schedules` at `stop node1 5`. -/
theorem lifecycle_handler_only_schedules_witness :
    accepted Cmd.stop ["node1", "5"] ∧
    ∃ t d, handler Cmd.stop ["node1", "5"] =
        Go.mk [Effect.newTimer t,
          Effect.go (Closure.make Cmd.stop (["node1", "5"].getD 0 "") d t)] (some ()) ∧
      ∀ e ∈ (handler Cmd.stop ["node1", "5"]).trace, e.isCall = false ∧ e.isWait = false :=
  ⟨accepted_stop_example,
    lifecycle_handler_only_schedules Cmd.stop ["node1", "5"] accepted_stop_example⟩

/-! ## The background task -/

/-- C4: on every accepted argument list, the function literal the handler starts writes
the informational message, then receives from the timer the handler created, then calls
the manager operation of its command on `args[0]`; what follows contains no manager call,
so the operation is called exactly once and only after the timer has fired. -/
theorem background_task_order (pm : ProcessManager) (k : Cmd) (args : List String)
    (h : accepted k args) :
    ∃ f info tail,
      handler k args = Go.mk [Effect.newTimer f.timerv, Effect.go f] (some ()) ∧
      f.body pm = Go.mk (Effect.print info :: Effect.recv f.timerv ::
        Effect.call (k.op (args.getD 0 "")) :: tail) (some ()) ∧
      ∀ e ∈ tail, e.isCall = false ∧ e.isWait = false := by
  obtain ⟨info, tail, hb, ht⟩ := Closure.body_shape pm
    (Closure.make k (args.getD 0 "") (delayOf (delayArg k args))
      ⟨mulDuration (delayOf (delayArg k args)) Second⟩)
  refine ⟨Closure.make k (args.getD 0 "") (delayOf (delayArg k args))
      ⟨mulDuration (delayOf (delayArg k args)) Second⟩, info, tail, ?_, ?_, ht⟩
  · rw [Closure.make_timerv]; exact handler_accepted k args h
  · rw [hb, Closure.make_op]

/-- Witness of `background_task_order` at `stop node1 5`, for a manager on which every
operation succeeds. -/
theorem background_task_order_witness :
    accepted Cmd.stop ["node1", "5"] ∧
    ∃ f info tail,
      handler Cmd.stop ["node1", "5"] = Go.mk [Effect.newTimer f.timerv, Effect.go f] (some ()) ∧
      f.body ⟨fun _ => none, fun _ => none, fun _ => none, fun _ => none, ("", none),
          ("", none), ("", none), fun _ => ("", none)⟩ =
        Go.mk (Effect.print info :: Effect.recv f.timerv ::
          Effect.call (Cmd.stop.op (["node1", "5"].getD 0 "")) :: tail) (some ()) ∧
      ∀ e ∈ tail, e.isCall = false ∧ e.isWait = false :=
  ⟨accepted_stop_example, background_task_order _ Cmd.stop ["node1", "5"] accepted_stop_example⟩

/-! ## Messages -/

/-- C5 (evaluation at the failing input): for the name `node1` and the delay 5, the
function literals of `stop` and `kill` write the same informational message, and so do
those of `stopall` and `killall`. -/
theorem kill_message_equals_stop_message (pm : ProcessManager) :
    ((Closure.stop "node1" 5 ⟨5000000000⟩).body pm).trace.head? =
      some (Effect.print "process will stop in 5s: node1\n") ∧
    ((Closure.kill "node1" 5 ⟨5000000000⟩).body pm).trace.head? =
      some (Effect.print "process will stop in 5s: node1\n") ∧
    ((Closure.stopall 5 ⟨5000000000⟩).body pm).trace.head? =
      some (Effect.print "all process will stop in 5s\n") ∧
    ((Closure.killall 5 ⟨5000000000⟩).body pm).trace.head? =
      some (Effect.print "all process will stop in 5s\n") :=
  ⟨rfl, rfl, rfl, rfl⟩

/-! ## Errors of scheduled operations -/

/-- C6: the function literal of every lifecycle command writes, after the informational
message, the wait and the manager call, exactly one error line when the call returned an
error and nothing when it returned `nil`; the line is the error text for
start/stop/kill/remove and `Error on process '<failedName>': <error text>` for the
aggregate commands. -/
theorem scheduled_errors_reach_output (pm : ProcessManager) (f : Closure) :
    ∃ info, (f.body pm).trace =
      [Effect.print info, Effect.recv f.timerv, Effect.call f.op] ++
        (match (pm.returns f.op).2 with
          | none => []
          | some e =>
            [Effect.print (if f.kind.takesName then e ++ "\n"
              else "Error on process '" ++ (pm.returns f.op).1 ++ "': " ++ e ++ "\n")]) := by
  obtain ⟨info, hb⟩ := Closure.body_eq pm f
  exact ⟨info, by rw [hb]; rfl⟩

/-! ## The timer duration -/

/-- C8 (evaluation at the failing input): `stop node1 9223372037` accepts the delay
9223372037, but the timer is created with a negative duration (the product with
`time.Second` wrapped around), so it fires at once. -/
theorem stop_delay_wraps_at_9223372037 :
    ParseInt "9223372037" = (9223372037, none) ∧
    handler Cmd.stop ["node1", "9223372037"] =
      Go.mk [Effect.newTimer ⟨-9223372036709551616⟩,
        Effect.go (Closure.stop "node1" 9223372037 ⟨-9223372036709551616⟩)] (some ()) ∧
    mulDuration 9223372037 Second ≠ 9223372037 * 1000000000 ∧
    (Timer.mk (-9223372036709551616)).firesAfter = 0 := by
  refine ⟨by decide, by rfl, by decide, by decide⟩

/-! ## Name validation -/

/-- C9 (evaluation at the failing input): `remove` with the empty argument list shows the
help and then panics on `args[0]`; with an empty name it shows the help and still
schedules `RemoveProcess("")`; `stop` and `kill` on the same inputs only show the help. -/
theorem remove_without_name_panics :
    PMRemoveCmd_Run [] = Go.mk [Effect.help] none ∧
    PMRemoveCmd_Run [""] =
      Go.mk [Effect.help, Effect.newTimer ⟨0⟩, Effect.go (Closure.remove "" 0 ⟨0⟩)] (some ()) ∧
    PMStopCmd_Run [] = Go.mk [Effect.help] (some ()) ∧
    PMStopCmd_Run [""] = Go.mk [Effect.help] (some ()) ∧
    PMKillCmd_Run [] = Go.mk [Effect.help] (some ()) ∧
    PMKillCmd_Run [""] = Go.mk [Effect.help] (some ()) :=
  ⟨by rfl, by rfl, by rfl, by rfl, by rfl, by rfl⟩

/-! ## The metadata command -/

/-- C10 (evaluation at the failing input): when `Metadata("ghost")` returns the value `m`
and the error `e`, `metadata ghost` calls `Metadata` once and then writes both the error
and the value. -/
theorem metadata_prints_error_and_value (pm : ProcessManager) (m e : String) :
    PMMetadataCmd_Run { pm with Metadata := fun _ => (m, some e) } ["ghost"] =
      Go.mk [Effect.call (MgrOp.Metadata "ghost"), Effect.print (e ++ "\n"),
        Effect.print (m ++ "\n")] (some ()) := by
  rw [PMMetadataCmd_Run_named _ "ghost" [] (by decide)]
  rfl

end Avash
